import Mathlib

/-!
Verification development for the AutoGooglePlayAnalyzer review-analysis
pipeline (src/analyzer.py, src/config.py).

Shallow embedding conventions:
* Python exceptions are modeled by the result type PyResult: a Python
  expression that can raise is a value of PyResult, and a try/except
  block is a match on it.
* The two external effects inside the pipeline, the OpenAI chat call and
  json.loads, are oracles passed in as arguments (the repository does not
  define them).  The database fetch result is likewise an input list.
* Python dict annotations coming back from the model are projected to
  their string-valued "u", "p", "c", "s" entries (structure Annotation
  with Option String fields; a missing key is none).  This covers every
  behaviour the claims speak about.
* Python floats appear only in the percent strings produced by
  aggregate_stats (f-string with one decimal).  They are modeled exactly
  as rational rounding of 1000*count/total to the nearest integer, ties
  to even, i.e. the percentage in tenths of a percent.
-/

/-- Result of evaluating a Python expression: a value, or a raised
exception carrying a message. -/
inductive PyResult (α : Type) where
  | ok (val : α)
  | exn (msg : String)
deriving DecidableEq, Repr

def PyResult.isExn {α : Type} : PyResult α → Bool
  | .ok _ => false
  | .exn _ => true

/-- Minimal JSON value model, the possible results of json.loads. -/
inductive Json where
  | null
  | bool (b : Bool)
  | num (n : Int)
  | str (s : String)
  | arr (elems : List Json)
  | obj (fields : List (String × Json))

/-- Lookup of a key in a JSON object field list (first match, as in a
Python dict where keys are unique anyway). -/
def lookupField : List (String × Json) → String → Option Json
  | [], _ => none
  | (k, v) :: rest, key => if k = key then some v else lookupField rest key

/-- Per-review annotation as consumed by aggregate_stats: the
string-valued "u", "p", "c", "s" entries of the annotation dict; a key
that is absent (or whose value is not a string) is none. -/
structure Annotation where
  u : Option String
  p : Option String
  c : Option String
  s : Option String
deriving DecidableEq, Repr

/-- String-valued field of a JSON object, none when absent or non-string. -/
def strField (fields : List (String × Json)) (k : String) : Option String :=
  match lookupField fields k with
  | some (.str s) => some s
  | _ => none

/-- Projection of one JSON annotation object to the fields
aggregate_stats reads via a.get(...). -/
def jsonToAnnotation : Json → Annotation
  | .obj fields => ⟨strField fields "u", strField fields "p",
                    strField fields "c", strField fields "s"⟩
  | _ => ⟨none, none, none, none⟩

/-- Value of parsed.get("annotations", []) in process_batch, projected to
annotations.  A non-object parse result raises AttributeError inside the
try block, which the except clause turns into [] — the same observable
value, so it is modeled as [] directly; a non-list "annotations" value is
likewise modeled as contributing no annotations. -/
def getAnnotations : Json → List Annotation
  | .obj fields =>
    match lookupField fields "annotations" with
    | some (.arr l) => l.map jsonToAnnotation
    | _ => []
  | _ => []

/-- One fetched review row (src/analyzer.py get_reviews_from_db); only
the content field is carried since the pipeline reads nothing else. -/
structure Review where
  content : String
deriving DecidableEq, Repr

/-- Configuration surface read by the analyzer (src/config.py).
OPENAI_API_KEY is os.getenv without a default, hence Option; APP_ID is
os.getenv with a string default, hence String (it can still be the empty
string when the environment variable is set but empty). -/
structure Config where
  OPENAI_API_KEY : Option String
  APP_ID : String
  OPENAI_MODEL : String
  BATCH_SIZE : Nat
deriving DecidableEq, Repr

/-- Python truthiness of an optional string: None and "" are falsy. -/
def truthyOpt : Option String → Bool
  | none => false
  | some s => s ≠ ""

/-- Config.validate (src/config.py lines 37-54): prints diagnostics and
returns False when OPENAI_API_KEY or APP_ID is falsy, True otherwise.
It does not raise. -/
def Config.validate (c : Config) : Bool :=
  truthyOpt c.OPENAI_API_KEY && (c.APP_ID ≠ "")

/-- Constructed analyzer state (the fields of ReviewAnalyzer set in
__init__). -/
structure ReviewAnalyzer where
  apiKey : Option String
  model : String
deriving DecidableEq, Repr

/-- AsyncOpenAI client construction: the library raises only when the
api_key argument is None (and the ambient environment variable, here the
same value, is also unset); any string, including "", is accepted. -/
def asyncOpenAIInit (key : Option String) : PyResult (Option String) :=
  match key with
  | none => .exn "OpenAIError: api_key must be set"
  | some s => .ok (some s)

/-- ReviewAnalyzer.__init__ (src/analyzer.py lines 29-37): calls
Config.validate and DISCARDS its boolean result, then constructs the
client. -/
def reviewAnalyzerInit (c : Config) : PyResult ReviewAnalyzer :=
  let _validationResultDiscarded := Config.validate c
  match asyncOpenAIInit c.OPENAI_API_KEY with
  | .exn e => .exn e
  | .ok k => .ok ⟨k, c.OPENAI_MODEL⟩

/-- Number of iterations of the Python loop for i in range(0, n, b)
for b > 0, i.e. the batch count ⌈n/b⌉. -/
def numBatches (n b : Nat) : Nat := (n + b - 1) / b

/-- Batching step of run_analysis (src/analyzer.py lines 232-237): for
i in range(0, len(reviews), B) take the slice reviews[i:i+B] with
batch_id i // B + 1.  Here i = j * B for the j-th iteration. -/
def makeBatches {α : Type} (reviews : List α) (B : Nat) : List (Nat × List α) :=
  (List.range (numBatches reviews.length B)).map
    (fun j => ((j * B) / B + 1, (reviews.drop (j * B)).take B))

/-- Body of the try block in process_batch (src/analyzer.py lines
96-111): await the chat call, json.loads the content, read the
"annotations" list.  An exception in either oracle propagates. -/
def processBatchTry (apiCall : PyResult String)
    (loads : String → PyResult Json) : PyResult (List Annotation) :=
  match apiCall with
  | .exn e => .exn e
  | .ok raw =>
    match loads raw with
    | .exn e => .exn e
    | .ok parsed => .ok (getAnnotations parsed)

/-- process_batch as a value: the except clause (lines 112-114) maps any
raised exception to the empty list. -/
def processBatch (apiCall : PyResult String)
    (loads : String → PyResult Json) : List Annotation :=
  match processBatchTry apiCall loads with
  | .ok anns => anns
  | .exn _ => []

/-- Caller-visible semantics of process_batch: the try/except means the
call itself never raises. -/
def processBatchCaller (apiCall : PyResult String)
    (loads : String → PyResult Json) : PyResult (List Annotation) :=
  match processBatchTry apiCall loads with
  | .ok anns => .ok anns
  | .exn _ => .ok []

/-- Key streams fed to the three Counters in aggregate_stats
(src/analyzer.py lines 124-126). -/
def usageKeys (xs : List Annotation) : List String :=
  xs.map (fun a => a.u.getD "Unknown")

def personaKeys (xs : List Annotation) : List String :=
  xs.map (fun a => a.p.getD "Unknown")

/-- Con_Type keys: annotations whose "c" value is the literal string
"None" are excluded; a missing key (a.get("c") is None, which differs
from "None") is kept and counted as "Unknown". -/
def conKeys (xs : List Annotation) : List String :=
  (xs.filter (fun a => a.c ≠ some "None")).map (fun a => a.c.getD "Unknown")

/-- First occurrences of the keys of a list, in order, skipping any key
already seen: the iteration order of a Python Counter built from the
stream. -/
def firstKeysAux (seen : List String) : List String → List String
  | [] => []
  | k :: ks =>
    if k ∈ seen then firstKeysAux seen ks
    else k :: firstKeysAux (k :: seen) ks

def firstKeys (ks : List String) : List String := firstKeysAux [] ks

/-- Counter(stream).items(): distinct keys in first-occurrence order,
each with its multiplicity in the stream. -/
def counterItems (ks : List String) : List (String × Nat) :=
  (firstKeys ks).map (fun k => (k, ks.count k))

/-- Stable insertion into a count-descending list: the new element goes
before the first entry with count ≤ its own, so among equal counts the
earlier stream element stays first. -/
def insertDesc (x : String × Nat) : List (String × Nat) → List (String × Nat)
  | [] => [x]
  | y :: ys => if y.2 ≤ x.2 then x :: y :: ys else y :: insertDesc x ys

/-- Stable sort by count descending, as performed by
Counter.most_common (heapq.nlargest is documented as the stable
descending sort truncated to n). -/
def sortDesc : List (String × Nat) → List (String × Nat)
  | [] => []
  | x :: xs => insertDesc x (sortDesc xs)

/-- Counter.most_common(10). -/
def mostCommon10 (items : List (String × Nat)) : List (String × Nat) :=
  (sortDesc items).take 10

/-- Percentage in tenths of a percent: the f-string
f"{(v/total)*100:.1f}%" of src/analyzer.py line 139, modeled as exact
rational rounding of 1000*v/total to the nearest integer with ties to
even (the rounding the format specifier performs on the value). -/
def percentTenths (v total : Nat) : Nat :=
  if 2 * (1000 * v % total) < total then 1000 * v / total
  else if total < 2 * (1000 * v % total) then 1000 * v / total + 1
  else if (1000 * v / total) % 2 = 0 then 1000 * v / total
  else 1000 * v / total + 1

/-- to_pct (src/analyzer.py lines 138-139): the top-10 entries, each as
(key, count, percent-in-tenths), in most_common order. -/
def toPct (total : Nat) (items : List (String × Nat)) : List (String × Nat × Nat) :=
  (mostCommon10 items).map (fun p => (p.1, p.2, percentTenths p.2 total))

/-- In-place update of the evidence dict (src/analyzer.py lines
133-136): a new category is appended at the end with its first quote
(the code creates an empty list and immediately appends, since 0 < 3);
an existing category appends the quote only while its list is shorter
than 3. -/
def updateAssoc : List (String × List String) → String → String →
    List (String × List String)
  | [], c, q => [(c, [q])]
  | (k, l) :: rest, c, q =>
    if k = c then (k, if l.length < 3 then l ++ [q] else l) :: rest
    else (k, l) :: updateAssoc rest c q

/-- One iteration of the evidence loop (src/analyzer.py lines 130-136):
c_type = a.get("c"); the body runs only when c_type is truthy (not None,
not "") and differs from "None" and "Unknown". -/
def stepEv (ev : List (String × List String)) (a : Annotation) :
    List (String × List String) :=
  match a.c with
  | none => ev
  | some c =>
    if c = "" ∨ c = "None" ∨ c = "Unknown" then ev
    else updateAssoc ev c (a.s.getD "")

/-- Evidence collection loop over all annotations in order. -/
def collectEvidence (xs : List Annotation) : List (String × List String) :=
  xs.foldl stepEv []

/-- Result record of aggregate_stats for a non-empty input.  The three
stats dimensions are ordered (key, count, percent-in-tenths) lists as
produced by to_pct; evidence is the insertion-ordered dict of quote
lists. -/
structure AggregatedStats where
  total_samples : Nat
  usage_stats : List (String × Nat × Nat)
  persona_stats : List (String × Nat × Nat)
  con_stats : List (String × Nat × Nat)
  evidence : List (String × List String)
deriving DecidableEq, Repr

/-- aggregate_stats (src/analyzer.py lines 116-147).  none models the
empty-stats sentinel {} returned when the input list is empty. -/
def aggregateStats (xs : List Annotation) : Option AggregatedStats :=
  if xs.length = 0 then none
  else some
    { total_samples := xs.length
      usage_stats := toPct xs.length (counterItems (usageKeys xs))
      persona_stats := toPct xs.length (counterItems (personaKeys xs))
      con_stats := toPct xs.length (counterItems (conKeys xs))
      evidence := collectEvidence xs }

/-- Sentinel returned by generate_final_report when the synthesis call
raises (src/analyzer.py line 210). -/
def failSentinel : String := "Failed to generate final report."

/-- generate_final_report (src/analyzer.py lines 149-210): one chat
call; the except clause returns the fixed sentinel string instead of
raising.  The stats argument only shapes the prompt, which is part of
the oracle input, so it does not appear on the right-hand side. -/
def generateFinalReport (synthCall : PyResult String)
    (_stats : Option AggregatedStats) : String :=
  match synthCall with
  | .ok content => content
  | .exn _ => failSentinel

/-- APP_ID.replace(".", "_") of src/analyzer.py line 259: every dot
becomes an underscore, character by character. -/
def replaceDots (s : String) : String :=
  ⟨s.data.map (fun ch => if ch = '.' then '_' else ch)⟩

/-- Report path built in run_analysis (src/analyzer.py line 259). -/
def reportFilename (appId timestamp : String) : String :=
  "reports/audit_" ++ replaceDots appId ++ "_" ++ timestamp ++ ".md"

/-- Observable pipeline events of one run_analysis execution, in
program order. -/
inductive Event where
  | fetched (n : Nat)
  | batchDone (batchId : Nat) (annotations : Nat)
  | aggregated (totalAnnotations : Nat)
  | synthInvoked
  | persisted (path content : String)
deriving DecidableEq, Repr

/-- run_analysis (src/analyzer.py lines 212-266) as an event trace.
Oracles: the fetched review rows, the per-batch chat-call outcome
(asyncio.gather returns results in task order), the shared json.loads
behaviour, the synthesis-call outcome, and the current timestamp.  An
empty fetch logs a warning and returns before batching; otherwise the
run always aggregates, always awaits the synthesis call, and always
persists the report content at the derived path. -/
def runAnalysis (cfg : Config) (reviews : List Review)
    (api : Nat → PyResult String) (loads : String → PyResult Json)
    (synth : PyResult String) (timestamp : String) : List Event :=
  if reviews.isEmpty then [Event.fetched 0]
  else
    let bs := makeBatches reviews cfg.BATCH_SIZE
    let allAnnotations := (bs.map (fun p => processBatch (api p.1) loads)).flatten
    let report := generateFinalReport synth (aggregateStats allAnnotations)
    Event.fetched reviews.length ::
      (bs.map (fun p => Event.batchDone p.1 (processBatch (api p.1) loads).length) ++
        [Event.aggregated allAnnotations.length, Event.synthInvoked,
          Event.persisted (reportFilename cfg.APP_ID timestamp) report])

/-- main (src/analyzer.py lines 268-270): construct the analyzer, then
run the pipeline; a constructor exception propagates. -/
def mainFlow (cfg : Config) (reviews : List Review)
    (api : Nat → PyResult String) (loads : String → PyResult Json)
    (synth : PyResult String) (timestamp : String) : PyResult (List Event) :=
  match reviewAnalyzerInit cfg with
  | .exn e => .exn e
  | .ok _ => .ok (runAnalysis cfg reviews api loads synth timestamp)

/-! Concrete inputs used by witnesses and counterexamples. -/

def mkA (u p c s : Option String) : Annotation := ⟨u, p, c, s⟩

/-- Four annotations in one defect category with four distinct quotes:
evidence keeps only the first three, so input order is visible. -/
def ex4 : List Annotation :=
  [ mkA (some "U") (some "P") (some "A") (some "q1"),
    mkA (some "U") (some "P") (some "A") (some "q2"),
    mkA (some "U") (some "P") (some "A") (some "q3"),
    mkA (some "U") (some "P") (some "A") (some "q4") ]

/-- Seven annotations with seven distinct usage labels: each reported
usage percentage is 14.3% and the seven of them sum to 100.1%. -/
def ex7 : List Annotation :=
  [ mkA (some "A") none (some "None") none,
    mkA (some "B") none (some "None") none,
    mkA (some "C") none (some "None") none,
    mkA (some "D") none (some "None") none,
    mkA (some "E") none (some "None") none,
    mkA (some "F") none (some "None") none,
    mkA (some "G") none (some "None") none ]

def cfgC1 : Config := ⟨some "sk-test", "a.b", "gpt-4o-mini", 2⟩

/-- Configuration that fails validation: APP_ID set to the empty string
while the API key is present. -/
def cfgBad : Config := ⟨some "sk-test", "", "gpt-4o-mini", 2⟩

def revs3 : List Review := [⟨"r1"⟩, ⟨"r2"⟩, ⟨"r3"⟩]

def revs5 : List Review := [⟨"r1"⟩, ⟨"r2"⟩, ⟨"r3"⟩, ⟨"r4"⟩, ⟨"r5"⟩]

/-- Oracle under which every annotation call raises. -/
def apiFail : Nat → PyResult String := fun _ => .exn "timeout"

/-- Oracle under which json.loads always raises. -/
def loadsFail : String → PyResult Json := fun _ => .exn "malformed JSON"

/-- Specification-side predicate: the categories that the evidence loop
admits (truthy, not "None", not "Unknown"). -/
def validCat (c : String) : Prop := c ≠ "" ∧ c ≠ "None" ∧ c ≠ "Unknown"

/-- Specification-side characterisation: the sample quotes of the
annotations whose defect category is exactly k, in input order. -/
def quotesFor (xs : List Annotation) (k : String) : List String :=
  (xs.filter (fun a => a.c = some k)).map (fun a => a.s.getD "")

/-- First-match lookup in the evidence association list. -/
def evLookup : List (String × List String) → String → Option (List String)
  | [], _ => none
  | (k, l) :: rest, key => if k = key then some l else evLookup rest key

/-- Loop invariant of the evidence collection: keys are distinct, every
stored entry is a valid category holding the first three quotes of the
processed prefix, and every valid category absent from the dict has no
quotes in the processed prefix yet. -/
def EvInv (processed : List Annotation) (ev : List (String × List String)) : Prop :=
  (ev.map Prod.fst).Nodup ∧
  (∀ k l, evLookup ev k = some l →
    validCat k ∧ l = (quotesFor processed k).take 3) ∧
  (∀ k, validCat k → evLookup ev k = none → quotesFor processed k = [])

/-! ### C9 — report path shape -/

/-- C9: the persisted report path is
reports/audit_<appid-with-dots-replaced>_<timestamp>.md, where the
sanitisation maps exactly the dot characters of the app identifier to
underscores and the timestamp is embedded verbatim; in particular app id
a.b.c with timestamp 20240101_120000 yields
reports/audit_a_b_c_20240101_120000.md. -/
theorem c9_report_path (appId ts : String) :
    reportFilename appId ts =
      "reports/audit_" ++ replaceDots appId ++ "_" ++ ts ++ ".md" ∧
    (replaceDots appId).data =
      appId.data.map (fun ch => if ch = '.' then '_' else ch) ∧
    reportFilename "a.b.c" "20240101_120000" =
      "reports/audit_a_b_c_20240101_120000.md" :=
  ⟨rfl, rfl, by decide⟩

/-! ### C7 — batch failure absorption -/

/-- C7: process_batch never raises to its caller (the caller-visible
result is always an ok value, namely the returned list), and whenever
the annotation call raises, or the call succeeds but json.loads raises
on its content, the returned list is empty. -/
theorem c7_process_batch_absorbs_failure (api : PyResult String)
    (loads : String → PyResult Json) :
    processBatchCaller api loads = .ok (processBatch api loads) ∧
    (api.isExn = true → processBatch api loads = []) ∧
    (∀ s, api = .ok s → (loads s).isExn = true → processBatch api loads = []) := by
  refine ⟨?_, ?_, ?_⟩
  · unfold processBatchCaller processBatch
    cases processBatchTry api loads <;> rfl
  · intro h
    cases api with
    | ok v => simp [PyResult.isExn] at h
    | exn e => rfl
  · intro s hs hl
    subst hs
    cases hloads : loads s with
    | ok v => rw [hloads] at hl; simp [PyResult.isExn] at hl
    | exn e => simp [processBatch, processBatchTry, hloads]

/-- C7 witness: a raised annotation call yields the ok empty list. -/
theorem c7_witness :
    processBatchCaller (.exn "timeout") loadsFail = .ok [] ∧
    processBatch (.exn "timeout") loadsFail = [] := by
  have h := c7_process_batch_absorbs_failure (.exn "timeout") loadsFail
  have h2 := h.2.1 rfl
  exact ⟨by rw [h.1, h2], h2⟩

/-! ### C2 — missing configuration is not fatal -/

/-- C2: with APP_ID set to the empty string and a valid API key,
Config.validate reports failure (returns false), yet
ReviewAnalyzer.__init__ succeeds because the boolean is discarded, and
the full pipeline proceeds through fetch, batching, annotation and even
persists a report.  The missing-configuration condition is therefore not
fatal and does not propagate. -/
theorem c2_validation_discarded :
    Config.validate cfgBad = false ∧
    reviewAnalyzerInit cfgBad = .ok ⟨some "sk-test", "gpt-4o-mini"⟩ ∧
    mainFlow cfgBad revs3 apiFail loadsFail (.ok "R") "20240101_120000" =
      .ok (runAnalysis cfgBad revs3 apiFail loadsFail (.ok "R") "20240101_120000") ∧
    Event.persisted (reportFilename "" "20240101_120000") "R" ∈
      runAnalysis cfgBad revs3 apiFail loadsFail (.ok "R") "20240101_120000" := by
  refine ⟨by decide, rfl, rfl, by decide⟩

/-! ### C8 — synthesis failure still persists the sentinel -/

/-- C8: generate_final_report maps a raised synthesis call to the fixed
sentinel string instead of raising, and for every run with a non-empty
fetch whose synthesis call raises, run_analysis still reaches the
persist step and writes that sentinel as the report content at the
derived path. -/
theorem c8_sentinel_persisted :
    (∀ (msg : String) (stats : Option AggregatedStats),
      generateFinalReport (.exn msg) stats = failSentinel) ∧
    (∀ (cfg : Config) (reviews : List Review) (api : Nat → PyResult String)
       (loads : String → PyResult Json) (msg ts : String),
      reviews ≠ [] →
      Event.persisted (reportFilename cfg.APP_ID ts) failSentinel ∈
        runAnalysis cfg reviews api loads (.exn msg) ts) := by
  refine ⟨fun _ _ => rfl, ?_⟩
  intro cfg reviews api loads msg ts hne
  unfold runAnalysis
  rw [if_neg (by simpa [List.isEmpty_iff] using hne)]
  simp [generateFinalReport, List.mem_append]

/-- C8 witness: with three fetched reviews and a failing synthesis call,
the sentinel is persisted at the derived path. -/
theorem c8_witness :
    Event.persisted (reportFilename "a.b" "t0") failSentinel ∈
      runAnalysis cfgC1 revs3 apiFail loadsFail (.exn "boom") "t0" :=
  c8_sentinel_persisted.2 cfgC1 revs3 apiFail loadsFail "boom" "t0" (by decide)

/-! ### C1 — empty aggregate does not short-circuit synthesis -/

/-- C1 counterexample: a run whose three fetched reviews all fail
annotation flattens to zero annotations (the aggregate event reports
total 0, and aggregate_stats of the empty list is the empty sentinel),
yet the synthesis call is still invoked downstream. -/
theorem c1_counterexample :
    aggregateStats ([] : List Annotation) = none ∧
    Event.aggregated 0 ∈ runAnalysis cfgC1 revs3 apiFail loadsFail (.ok "R") "t0" ∧
    Event.synthInvoked ∈ runAnalysis cfgC1 revs3 apiFail loadsFail (.ok "R") "t0" := by
  refine ⟨rfl, by decide, by decide⟩

/-- C1 amended: aggregate_stats of an empty annotation list is the
empty-stats sentinel, but run_analysis does not short-circuit on it:
whenever the fetched review list is non-empty the synthesizer is
invoked (even if every batch failed and the sentinel was returned);
the only short-circuit is an empty fetch, in which case the synthesizer
is never invoked. -/
theorem c1_amended_no_short_circuit :
    aggregateStats ([] : List Annotation) = none ∧
    (∀ (cfg : Config) (reviews : List Review) (api : Nat → PyResult String)
       (loads : String → PyResult Json) (synth : PyResult String) (ts : String),
      (reviews ≠ [] → Event.synthInvoked ∈ runAnalysis cfg reviews api loads synth ts) ∧
      (reviews = [] → Event.synthInvoked ∉ runAnalysis cfg reviews api loads synth ts)) := by
  refine ⟨rfl, ?_⟩
  intro cfg reviews api loads synth ts
  constructor
  · intro hne
    unfold runAnalysis
    rw [if_neg (by simpa [List.isEmpty_iff] using hne)]
    simp [List.mem_append]
  · intro he
    subst he
    simp [runAnalysis]

/-- C1 witness: on a non-empty fetch the synthesizer is invoked. -/
theorem c1_witness :
    Event.synthInvoked ∈ runAnalysis cfgC1 revs3 apiFail loadsFail (.ok "R") "t0" :=
  (c1_amended_no_short_circuit.2 cfgC1 revs3 apiFail loadsFail (.ok "R") "t0").1 (by decide)

/-! ### C3 — aggregation is not order-independent -/

/-- C3 counterexample: reversing ex4 is a permutation, yet
aggregate_stats differs (the evidence quote lists keep the first three
quotes in iteration order, so they change under permutation). -/
theorem c3_counterexample :
    ex4.reverse.Perm ex4 ∧ aggregateStats ex4.reverse ≠ aggregateStats ex4 :=
  ⟨List.reverse_perm ex4, by decide⟩

/-- C3 amended: aggregation is order-independent in the emptiness of the
result, in total_samples, and in the per-category counts underlying each
of the three dimensions (the Counter multisets); the ordered top-10
listings and the evidence quote lists may depend on input order. -/
theorem c3_amended_counts_order_independent (xs ys : List Annotation)
    (hperm : ys.Perm xs) :
    (aggregateStats ys).isSome = (aggregateStats xs).isSome ∧
    (aggregateStats ys).map (fun s => s.total_samples) =
      (aggregateStats xs).map (fun s => s.total_samples) ∧
    (∀ k, (usageKeys ys).count k = (usageKeys xs).count k) ∧
    (∀ k, (personaKeys ys).count k = (personaKeys xs).count k) ∧
    (∀ k, (conKeys ys).count k = (conKeys xs).count k) := by
  have hlen := hperm.length_eq
  refine ⟨?_, ?_, ?_, ?_, ?_⟩
  · by_cases h : xs = [] <;> simp [aggregateStats, hlen, h]
  · by_cases h : xs = [] <;> simp [aggregateStats, hlen, h]
  · intro k
    exact (hperm.map (fun a => a.u.getD "Unknown")).count_eq k
  · intro k
    exact (hperm.map (fun a => a.p.getD "Unknown")).count_eq k
  · intro k
    exact ((hperm.filter (fun a => a.c ≠ some "None")).map
      (fun a => a.c.getD "Unknown")).count_eq k

/-- C3 witness: the amended order-independence at the concrete reversed
list. -/
theorem c3_amended_witness :
    ex4.reverse.Perm ex4 ∧
    ((aggregateStats ex4.reverse).isSome = (aggregateStats ex4).isSome ∧
     (aggregateStats ex4.reverse).map (fun s => s.total_samples) =
       (aggregateStats ex4).map (fun s => s.total_samples) ∧
     (∀ k, (usageKeys ex4.reverse).count k = (usageKeys ex4).count k) ∧
     (∀ k, (personaKeys ex4.reverse).count k = (personaKeys ex4).count k) ∧
     (∀ k, (conKeys ex4.reverse).count k = (conKeys ex4).count k)) :=
  ⟨List.reverse_perm ex4,
    c3_amended_counts_order_independent ex4 ex4.reverse (List.reverse_perm ex4)⟩

/-! ### C4 — batching structure -/

/-- Concatenating the first n contiguous B-slices of a list recovers its
first n*B elements. -/
theorem flatten_slices {α : Type} (l : List α) (B : Nat) (n : Nat) :
    ((List.range n).map (fun j => (l.drop (j * B)).take B)).flatten = l.take (n * B) := by
  induction n with
  | zero => simp
  | succ m ih =>
    rw [List.range_succ, List.map_append, List.flatten_append, ih, Nat.succ_mul,
      List.take_add]
    simp

/-- The batch count times the batch size covers the whole input. -/
theorem numBatches_mul_ge (n b : Nat) (hb : 0 < b) : n ≤ numBatches n b * b := by
  unfold numBatches
  have hd := Nat.div_add_mod (n + b - 1) b
  have hr : (n + b - 1) % b < b := Nat.mod_lt _ hb
  generalize hk : b * ((n + b - 1) / b) = k at hd
  rw [Nat.mul_comm, hk]
  omega

/-- Identifier stream of the batching loop: i // B + 1 over i = j*B. -/
theorem batch_ids_eq_range' (B : Nat) (hB : 0 < B) (n : Nat) :
    (List.range n).map (fun j => (j * B) / B + 1) = List.range' 1 n := by
  have h : ∀ j, (j * B) / B + 1 = 1 + j := by
    intro j
    rw [Nat.mul_div_cancel _ hB, Nat.add_comm]
  simp only [h]
  rw [List.range'_eq_map_range]

/-- C4: for a non-empty review list and positive batch size B, the
batching step of run_analysis produces exactly ⌈N/B⌉ = (N+B-1)/B
batches; every batch slice has length at most B; the slices concatenate,
in dispatch order, back to the original review list (hence they are
contiguous and pairwise non-overlapping); and the batch identifiers are
the sequential integers 1, 2, ..., ⌈N/B⌉. -/
theorem c4_batching (reviews : List Review) (B : Nat) (hB : 0 < B)
    (_hN : 0 < reviews.length) :
    (makeBatches reviews B).length = (reviews.length + B - 1) / B ∧
    (∀ p ∈ makeBatches reviews B, p.2.length ≤ B) ∧
    ((makeBatches reviews B).map Prod.snd).flatten = reviews ∧
    (makeBatches reviews B).map Prod.fst =
      List.range' 1 ((makeBatches reviews B).length) := by
  refine ⟨by simp [makeBatches, numBatches], ?_, ?_, ?_⟩
  · intro p hp
    simp only [makeBatches, List.mem_map, List.mem_range] at hp
    obtain ⟨j, hj, rfl⟩ := hp
    simp [List.length_take]
  · unfold makeBatches
    rw [List.map_map]
    have hcomp : (Prod.snd ∘ fun j => ((j * B) / B + 1, (reviews.drop (j * B)).take B)) =
        fun j => (reviews.drop (j * B)).take B := rfl
    rw [hcomp, flatten_slices]
    exact List.take_of_length_le (numBatches_mul_ge reviews.length B hB)
  · unfold makeBatches
    rw [List.map_map]
    have hcomp : (Prod.fst ∘ fun j => ((j * B) / B + 1, (reviews.drop (j * B)).take B)) =
        fun j => (j * B) / B + 1 := rfl
    rw [hcomp, batch_ids_eq_range' B hB]
    simp

/-- C4 witness: five reviews with batch size two give three batches of
sizes two, two, one, identifiers 1, 2, 3. -/
theorem c4_witness :
    0 < 2 ∧ 0 < revs5.length ∧
    ((makeBatches revs5 2).length = (revs5.length + 2 - 1) / 2 ∧
     (∀ p ∈ makeBatches revs5 2, p.2.length ≤ 2) ∧
     ((makeBatches revs5 2).map Prod.snd).flatten = revs5 ∧
     (makeBatches revs5 2).map Prod.fst =
       List.range' 1 ((makeBatches revs5 2).length)) :=
  ⟨by decide, by decide, c4_batching revs5 2 (by decide) (by decide)⟩

/-! ### C10 — missing keys count as Unknown -/

/-- Counting the Unknown bucket of a getD-defaulted key stream: a
missing key and a literal "Unknown" both land there. -/
theorem count_unknown_getD (f : Annotation → Option String) (xs : List Annotation) :
    (xs.map (fun a => (f a).getD "Unknown")).count "Unknown" =
      xs.countP (fun a => f a == none || f a == some "Unknown") := by
  induction xs with
  | nil => rfl
  | cons a xs ih =>
    rw [List.map_cons, List.count_cons, List.countP_cons, ih]
    cases hfa : f a with
    | none => simp
    | some v => by_cases hv : v = "Unknown" <;> simp [hv]

/-- Unknown bucket of the con dimension. -/
theorem conKeys_count_unknown (xs : List Annotation) :
    (conKeys xs).count "Unknown" =
      xs.countP (fun a => a.c == none || a.c == some "Unknown") := by
  simp only [conKeys, ne_eq, decide_not]
  induction xs with
  | nil => rfl
  | cons a xs ih =>
    rw [List.filter_cons, List.countP_cons]
    cases hac : a.c with
    | none => simp [List.count_cons, ih, hac]
    | some v =>
      by_cases hv : v = "None"
      · simp [hac, hv, ih]
      · by_cases hu : v = "Unknown" <;>
          simp [hac, hv, hu, List.count_cons, ih]

/-- Size of the con stream: the input minus the annotations whose c is
the literal string "None". -/
theorem conKeys_length (xs : List Annotation) :
    (conKeys xs).length = xs.length - xs.countP (fun a => a.c == some "None") := by
  have hle : xs.countP (fun a => a.c == some "None") ≤ xs.length :=
    List.countP_le_length _
  induction xs with
  | nil => rfl
  | cons a xs ih =>
    have hle' : xs.countP (fun a => a.c == some "None") ≤ xs.length :=
      List.countP_le_length _
    have ih' := ih hle'
    rw [List.countP_cons, conKeys, List.filter_cons]
    by_cases h : a.c = some "None"
    · simp [h, conKeys] at ih' ⊢
      omega
    · simp [h, conKeys] at ih' ⊢
      omega

/-- C10: a missing "u" (resp. "p") key is counted under "Unknown" in the
usage (resp. persona) dimension; a missing "c" key is counted under
"Unknown" in the con dimension; and only the literal string "None" is
excluded from the con stream (its size is the input size minus exactly
the annotations whose c is the string "None"). -/
theorem c10_missing_keys_unknown (xs : List Annotation) :
    (usageKeys xs).count "Unknown" =
      xs.countP (fun a => a.u == none || a.u == some "Unknown") ∧
    (personaKeys xs).count "Unknown" =
      xs.countP (fun a => a.p == none || a.p == some "Unknown") ∧
    (conKeys xs).count "Unknown" =
      xs.countP (fun a => a.c == none || a.c == some "Unknown") ∧
    (conKeys xs).length = xs.length - xs.countP (fun a => a.c == some "None") :=
  ⟨count_unknown_getD (fun a => a.u) xs, count_unknown_getD (fun a => a.p) xs,
    conKeys_count_unknown xs, conKeys_length xs⟩

/-! ### C5 — percentages and their sums -/

/-- firstKeysAux produces distinct keys, none of them already seen. -/
theorem firstKeysAux_nodup (ks : List String) : ∀ (seen : List String),
    (firstKeysAux seen ks).Nodup ∧ ∀ k ∈ firstKeysAux seen ks, k ∉ seen := by
  induction ks with
  | nil => intro seen; exact ⟨List.nodup_nil, by intro k hk; cases hk⟩
  | cons k ks ih =>
    intro seen
    unfold firstKeysAux
    by_cases hmem : k ∈ seen
    · rw [if_pos hmem]
      exact ih seen
    · rw [if_neg hmem]
      obtain ⟨hnd, hdisj⟩ := ih (k :: seen)
      refine ⟨List.nodup_cons.mpr ⟨?_, hnd⟩, ?_⟩
      · intro hk
        exact hdisj k hk (List.mem_cons_self k seen)
      · intro x hx
        rcases List.mem_cons.mp hx with rfl | hx'
        · exact hmem
        · intro hxseen
          exact hdisj x hx' (List.mem_cons_of_mem _ hxseen)

theorem firstKeys_nodup (ks : List String) : (firstKeys ks).Nodup :=
  (firstKeysAux_nodup ks []).1

/-- Pointwise sum split over a map. -/
theorem sum_map_add {α : Type} (f g : α → Nat) (l : List α) :
    (l.map (fun x => f x + g x)).sum = (l.map f).sum + (l.map g).sum := by
  induction l with
  | nil => rfl
  | cons a l ih => simp [ih]; omega

/-- A list without duplicates contains a given element at most once. -/
theorem sum_indicator_le_one (a : String) (ds : List String) (h : ds.Nodup) :
    (ds.map (fun k => if k = a then 1 else 0)).sum ≤ 1 := by
  induction ds with
  | nil => simp
  | cons d ds ih =>
    obtain ⟨hd, hnd⟩ := List.nodup_cons.mp h
    by_cases hda : d = a
    · subst hda
      have hzero : (ds.map (fun k => if k = d then 1 else 0)).sum = 0 := by
        rw [List.sum_eq_zero]
        intro x hx
        rw [List.mem_map] at hx
        obtain ⟨k, hk, rfl⟩ := hx
        have : ¬ k = d := fun he => hd (he ▸ hk)
        simp [this]
      simp [hzero]
    · simp only [List.map_cons, List.sum_cons, if_neg hda]
      have := ih hnd
      omega

/-- Sum of the multiplicities of distinct keys is at most the stream
length. -/
theorem sum_counts_le (ds ks : List String) (h : ds.Nodup) :
    (ds.map (fun k => ks.count k)).sum ≤ ks.length := by
  induction ks with
  | nil => simp
  | cons a ks ih =>
    have hsplit : (ds.map (fun k => (a :: ks).count k)).sum =
        (ds.map (fun k => ks.count k)).sum +
          (ds.map (fun k => if k = a then 1 else 0)).sum := by
      rw [← sum_map_add]
      congr 1
      apply List.map_congr_left
      intro k _
      rw [List.count_cons]
      simp only [beq_iff_eq]
      exact congrArg (fun m => List.count k ks + m) (if_congr eq_comm rfl rfl)
    rw [hsplit, List.length_cons]
    have h1 := sum_indicator_le_one a ds h
    omega

/-- Stable descending insertion only permutes. -/
theorem insertDesc_perm (x : String × Nat) (l : List (String × Nat)) :
    (insertDesc x l).Perm (x :: l) := by
  induction l with
  | nil => exact List.Perm.refl _
  | cons y ys ih =>
    unfold insertDesc
    by_cases h : y.2 ≤ x.2
    · rw [if_pos h]
    · rw [if_neg h]
      exact (ih.cons y).trans (List.Perm.swap x y ys)

/-- most_common sorting only permutes the counter items. -/
theorem sortDesc_perm (l : List (String × Nat)) : (sortDesc l).Perm l := by
  induction l with
  | nil => exact List.Perm.refl _
  | cons x xs ih =>
    unfold sortDesc
    exact (insertDesc_perm x (sortDesc xs)).trans (ih.cons x)

/-- Sum of a Nat-list is monotone under take. -/
theorem sum_take_le (l : List Nat) (n : Nat) : (l.take n).sum ≤ l.sum := by
  conv_rhs => rw [← List.take_append_drop n l]
  rw [List.sum_append]
  exact Nat.le_add_right _ _

/-- The counts reported by one stats dimension sum to at most the stream
length. -/
theorem toPct_counts_sum_le (total : Nat) (ks : List String) :
    ((toPct total (counterItems ks)).map (fun e => e.2.1)).sum ≤ ks.length := by
  unfold toPct mostCommon10 counterItems
  rw [List.map_map]
  have hcomp : ((fun e => e.2.1) ∘
      fun p : String × Nat => (p.1, p.2, percentTenths p.2 total)) = Prod.snd := rfl
  rw [hcomp, List.map_take]
  refine le_trans (sum_take_le _ 10) ?_
  rw [((sortDesc_perm _).map Prod.snd).sum_eq, List.map_map]
  have hcomp2 : (Prod.snd ∘ fun k => (k, ks.count k)) = fun k => ks.count k := rfl
  rw [hcomp2]
  exact sum_counts_le _ ks (firstKeys_nodup ks)

/-- Rounded tenths never exceed the floor by more than one. -/
theorem percentTenths_le_div_add_one (v t : Nat) :
    percentTenths v t ≤ 1000 * v / t + 1 := by
  unfold percentTenths
  split
  · omega
  · split
    · omega
    · split <;> omega

/-- Floor division is superadditive. -/
theorem div_add_div_le (a b t : Nat) (ht : 0 < t) :
    a / t + b / t ≤ (a + b) / t := by
  rw [Nat.le_div_iff_mul_le ht, Nat.add_mul]
  exact Nat.add_le_add (Nat.div_mul_le_self _ _) (Nat.div_mul_le_self _ _)

theorem sum_div_le (t : Nat) (ht : 0 < t) (l : List Nat) :
    (l.map (fun v => 1000 * v / t)).sum ≤ 1000 * l.sum / t := by
  induction l with
  | nil => simp
  | cons a l ih =>
    rw [List.map_cons, List.sum_cons, List.sum_cons, Nat.mul_add]
    exact le_trans (Nat.add_le_add_left ih _) (div_add_div_le _ _ t ht)

theorem sum_map_one {α : Type} (l : List α) : (l.map (fun _ => 1)).sum = l.length := by
  induction l with
  | nil => rfl
  | cons a l ih => simp [ih, Nat.add_comm]

/-- Sum of rounded tenths over values summing to at most the total is
at most 100.0% plus one tenth per entry. -/
theorem sum_percentTenths_le (t : Nat) (ht : 0 < t) (l : List Nat)
    (hsum : l.sum ≤ t) :
    (l.map (fun v => percentTenths v t)).sum ≤ 1000 + l.length := by
  have h1 : (l.map (fun v => percentTenths v t)).sum ≤
      (l.map (fun v => 1000 * v / t + 1)).sum := by
    apply List.sum_le_sum
    intro v _
    exact percentTenths_le_div_add_one v t
  have h2 : (l.map (fun v => 1000 * v / t + 1)).sum =
      (l.map (fun v => 1000 * v / t)).sum + l.length := by
    rw [sum_map_add (fun v => 1000 * v / t) (fun _ => 1) l, sum_map_one]
  have h3 := sum_div_le t ht l
  have h4 : 1000 * l.sum / t ≤ 1000 := by
    calc 1000 * l.sum / t ≤ 1000 * t / t :=
          Nat.div_le_div_right (Nat.mul_le_mul_left 1000 hsum)
      _ = 1000 := Nat.mul_div_cancel 1000 ht
  omega

/-- Counts of the reported top-10 entries sum to at most the stream
length. -/
theorem mostCommon10_counts_sum_le (ks : List String) :
    ((mostCommon10 (counterItems ks)).map Prod.snd).sum ≤ ks.length := by
  unfold mostCommon10 counterItems
  rw [List.map_take]
  refine le_trans (sum_take_le _ 10) ?_
  rw [((sortDesc_perm _).map Prod.snd).sum_eq, List.map_map]
  exact sum_counts_le _ ks (firstKeys_nodup ks)

/-- Every reported percent field is the rounding of its count over the
total. -/
theorem toPct_percent (total : Nat) (items : List (String × Nat)) :
    ∀ e ∈ toPct total items, e.2.2 = percentTenths e.2.1 total := by
  intro e he
  unfold toPct at he
  rw [List.mem_map] at he
  obtain ⟨p, _, rfl⟩ := he
  rfl

/-- Reported percents of one dimension sum to at most 101.0% (at most
ten entries, each rounded up by less than a tenth past its floor). -/
theorem toPct_percent_sum_le (total : Nat) (ht : 0 < total) (ks : List String)
    (hks : ks.length ≤ total) :
    ((toPct total (counterItems ks)).map (fun e => e.2.2)).sum ≤ 1010 := by
  unfold toPct
  rw [List.map_map]
  have hcomp : ((fun e => e.2.2) ∘ fun p : String × Nat =>
      (p.1, p.2, percentTenths p.2 total)) =
      (fun v => percentTenths v total) ∘ Prod.snd := rfl
  rw [hcomp, ← List.map_map]
  refine le_trans (sum_percentTenths_le total ht _
    (le_trans (mostCommon10_counts_sum_le ks) hks)) ?_
  have hlen : ((mostCommon10 (counterItems ks)).map Prod.snd).length ≤ 10 := by
    rw [List.length_map]
    unfold mostCommon10
    exact List.length_take_le _ _
  omega

/-- C5 counterexample: seven annotations with seven distinct usage
labels.  Each reported usage percentage is round(1/7*100, 1) = 14.3%
(143 tenths), and the seven reported percentages sum to 100.1% (1001
tenths), which exceeds 100% — so "reported percentages within one
dimension sum to at most 100%" is false. -/
theorem c5_counterexample :
    (aggregateStats ex7).isSome = true ∧
    ((((aggregateStats ex7).getD ⟨0, [], [], [], []⟩).usage_stats.map
        (fun e => e.2.2)).sum ≤ 1000) = False := by
  constructor
  · rfl
  · simp only [eq_iff_iff, iff_false]
    decide

/-- C5 amended: for every non-empty annotation list (stats = some s),
in each of the three dimensions every reported percent equals the
rounding of count/total to one decimal, the reported counts sum to at
most total (so the exact percentages sum to at most 100%), and the
rounded reported percentages sum to at most 101.0% (1010 tenths) — they
can exceed 100%, as the counterexample shows. -/
theorem c5_percent_and_sums (xs : List Annotation) (s : AggregatedStats)
    (h : aggregateStats xs = some s) :
    (∀ e ∈ s.usage_stats, e.2.2 = percentTenths e.2.1 s.total_samples) ∧
    (∀ e ∈ s.persona_stats, e.2.2 = percentTenths e.2.1 s.total_samples) ∧
    (∀ e ∈ s.con_stats, e.2.2 = percentTenths e.2.1 s.total_samples) ∧
    (s.usage_stats.map (fun e => e.2.1)).sum ≤ s.total_samples ∧
    (s.persona_stats.map (fun e => e.2.1)).sum ≤ s.total_samples ∧
    (s.con_stats.map (fun e => e.2.1)).sum ≤ s.total_samples ∧
    (s.usage_stats.map (fun e => e.2.2)).sum ≤ 1010 ∧
    (s.persona_stats.map (fun e => e.2.2)).sum ≤ 1010 ∧
    (s.con_stats.map (fun e => e.2.2)).sum ≤ 1010 := by
  unfold aggregateStats at h
  by_cases hlen : xs.length = 0
  · rw [if_pos hlen] at h
    cases h
  · rw [if_neg hlen] at h
    have hs := Option.some.inj h
    subst hs
    have ht : 0 < xs.length := Nat.pos_of_ne_zero hlen
    have hu : (usageKeys xs).length = xs.length := List.length_map _ _
    have hp : (personaKeys xs).length = xs.length := List.length_map _ _
    have hc : (conKeys xs).length ≤ xs.length := by
      rw [conKeys, List.length_map]
      exact List.length_filter_le _ _
    exact ⟨toPct_percent _ _, toPct_percent _ _, toPct_percent _ _,
      le_trans (toPct_counts_sum_le _ _) (le_of_eq hu),
      le_trans (toPct_counts_sum_le _ _) (le_of_eq hp),
      le_trans (toPct_counts_sum_le _ _) hc,
      toPct_percent_sum_le _ ht _ (le_of_eq hu),
      toPct_percent_sum_le _ ht _ (le_of_eq hp),
      toPct_percent_sum_le _ ht _ hc⟩

/-- C5 witness: the amended statement at the concrete list ex4. -/
theorem c5_witness :
    aggregateStats ex4 = some ((aggregateStats ex4).getD ⟨0, [], [], [], []⟩) ∧
    ((∀ e ∈ ((aggregateStats ex4).getD ⟨0, [], [], [], []⟩).usage_stats,
        e.2.2 = percentTenths e.2.1
          ((aggregateStats ex4).getD ⟨0, [], [], [], []⟩).total_samples) ∧
     (∀ e ∈ ((aggregateStats ex4).getD ⟨0, [], [], [], []⟩).persona_stats,
        e.2.2 = percentTenths e.2.1
          ((aggregateStats ex4).getD ⟨0, [], [], [], []⟩).total_samples) ∧
     (∀ e ∈ ((aggregateStats ex4).getD ⟨0, [], [], [], []⟩).con_stats,
        e.2.2 = percentTenths e.2.1
          ((aggregateStats ex4).getD ⟨0, [], [], [], []⟩).total_samples) ∧
     (((aggregateStats ex4).getD ⟨0, [], [], [], []⟩).usage_stats.map
        (fun e => e.2.1)).sum ≤
          ((aggregateStats ex4).getD ⟨0, [], [], [], []⟩).total_samples ∧
     (((aggregateStats ex4).getD ⟨0, [], [], [], []⟩).persona_stats.map
        (fun e => e.2.1)).sum ≤
          ((aggregateStats ex4).getD ⟨0, [], [], [], []⟩).total_samples ∧
     (((aggregateStats ex4).getD ⟨0, [], [], [], []⟩).con_stats.map
        (fun e => e.2.1)).sum ≤
          ((aggregateStats ex4).getD ⟨0, [], [], [], []⟩).total_samples ∧
     (((aggregateStats ex4).getD ⟨0, [], [], [], []⟩).usage_stats.map
        (fun e => e.2.2)).sum ≤ 1010 ∧
     (((aggregateStats ex4).getD ⟨0, [], [], [], []⟩).persona_stats.map
        (fun e => e.2.2)).sum ≤ 1010 ∧
     (((aggregateStats ex4).getD ⟨0, [], [], [], []⟩).con_stats.map
        (fun e => e.2.2)).sum ≤ 1010) :=
  ⟨by decide,
    c5_percent_and_sums ex4 ((aggregateStats ex4).getD ⟨0, [], [], [], []⟩)
      (by decide)⟩

/-! ### C6 — evidence invariants -/

/-- Keys after an update: unchanged when the category is present,
appended at the end when new. -/
theorem updateAssoc_keys (ev : List (String × List String)) (c q : String) :
    (updateAssoc ev c q).map Prod.fst =
      if c ∈ ev.map Prod.fst then ev.map Prod.fst else ev.map Prod.fst ++ [c] := by
  induction ev with
  | nil => simp [updateAssoc]
  | cons p rest ih =>
    obtain ⟨k, l⟩ := p
    unfold updateAssoc
    by_cases hk : k = c
    · subst hk
      simp
    · rw [if_neg hk]
      simp only [List.map_cons, ih]
      by_cases hm : c ∈ rest.map Prod.fst
      · rw [if_pos hm, if_pos]
        exact List.mem_cons_of_mem _ hm
      · rw [if_neg hm, if_neg]
        · simp
        · intro hmem
          rcases List.mem_cons.mp hmem with he | hmem'
          · exact hk he.symm
          · exact hm hmem'

/-- Lookup at the updated category. -/
theorem evLookup_updateAssoc_self (ev : List (String × List String)) (c q : String) :
    evLookup (updateAssoc ev c q) c =
      some (match evLookup ev c with
            | none => [q]
            | some l => if l.length < 3 then l ++ [q] else l) := by
  induction ev with
  | nil => simp [updateAssoc, evLookup]
  | cons p rest ih =>
    obtain ⟨k, l⟩ := p
    unfold updateAssoc
    by_cases hk : k = c
    · subst hk
      simp [evLookup]
    · rw [if_neg hk]
      unfold evLookup
      rw [if_neg hk, if_neg hk]
      exact ih

/-- Lookup at any other category is unchanged. -/
theorem evLookup_updateAssoc_ne (ev : List (String × List String)) (c q k : String)
    (h : k ≠ c) : evLookup (updateAssoc ev c q) k = evLookup ev k := by
  induction ev with
  | nil =>
    simp only [updateAssoc, evLookup]
    rw [if_neg (fun he => h he.symm)]
  | cons p rest ih =>
    obtain ⟨k', l⟩ := p
    by_cases hk : k' = c
    · subst hk
      simp only [updateAssoc, if_pos rfl, evLookup]
      rw [if_neg (fun he => h (he.symm)), if_neg (fun he => h (he.symm))]
    · simp only [updateAssoc, if_neg hk, evLookup]
      by_cases hkk : k' = k
      · rw [if_pos hkk, if_pos hkk]
      · rw [if_neg hkk, if_neg hkk]
        exact ih

/-- With distinct keys, membership determines the lookup. -/
theorem evLookup_of_mem (ev : List (String × List String)) (k : String)
    (l : List String) (hnd : (ev.map Prod.fst).Nodup) (hm : (k, l) ∈ ev) :
    evLookup ev k = some l := by
  induction ev with
  | nil => cases hm
  | cons p rest ih =>
    obtain ⟨k', l'⟩ := p
    rw [List.map_cons, List.nodup_cons] at hnd
    obtain ⟨hk_nin, hnd'⟩ := hnd
    rcases List.mem_cons.mp hm with he | hm'
    · injection he with h1 h2
      subst h1
      subst h2
      simp [evLookup]
    · simp only [evLookup]
      by_cases hk : k' = k
      · subst hk
        exact absurd (List.mem_map.mpr ⟨(k', l), hm', rfl⟩) hk_nin
      · rw [if_neg hk]
        exact ih hnd' hm'

/-- Appending one annotation extends exactly the quotes of its own
category. -/
theorem quotesFor_append (xs : List Annotation) (a : Annotation) (k : String) :
    quotesFor (xs ++ [a]) k =
      quotesFor xs k ++ (if a.c = some k then [a.s.getD ""] else []) := by
  unfold quotesFor
  rw [List.filter_append, List.map_append]
  congr 1
  by_cases h : a.c = some k
  · simp [h]
  · simp [h]

/-- One evidence-loop iteration preserves the invariant. -/
theorem evInv_step (processed : List Annotation) (ev : List (String × List String))
    (a : Annotation) (h : EvInv processed ev) : EvInv (processed ++ [a]) (stepEv ev a) := by
  obtain ⟨hnd, hsome, hnone⟩ := h
  cases hac : a.c with
  | none =>
    have hstep : stepEv ev a = ev := by simp [stepEv, hac]
    rw [hstep]
    refine ⟨hnd, ?_, ?_⟩
    · intro k l hkl
      obtain ⟨hv, hl⟩ := hsome k l hkl
      refine ⟨hv, ?_⟩
      rw [quotesFor_append]
      simp only [hac]
      rw [if_neg (fun he => Option.noConfusion he)]
      simpa using hl
    · intro k hv hlk
      have hq := hnone k hv hlk
      rw [quotesFor_append]
      simp only [hac]
      rw [if_neg (fun he => Option.noConfusion he)]
      simp [hq]
  | some c₀ =>
    by_cases hval : c₀ = "" ∨ c₀ = "None" ∨ c₀ = "Unknown"
    · have hstep : stepEv ev a = ev := by
        simp only [stepEv, hac]
        rw [if_pos hval]
      rw [hstep]
      have hvalid_ne : ∀ k, validCat k → c₀ ≠ k := by
        intro k hv he
        rcases hval with h1 | h1 | h1 <;> subst h1
        · exact hv.1 he.symm
        · exact hv.2.1 he.symm
        · exact hv.2.2 he.symm
      refine ⟨hnd, ?_, ?_⟩
      · intro k l hkl
        obtain ⟨hv, hl⟩ := hsome k l hkl
        refine ⟨hv, ?_⟩
        rw [quotesFor_append]
        simp only [hac]
        rw [if_neg (fun he => hvalid_ne k hv (Option.some.inj he))]
        simpa using hl
      · intro k hv hlk
        have hq := hnone k hv hlk
        rw [quotesFor_append]
        simp only [hac]
        rw [if_neg (fun he => hvalid_ne k hv (Option.some.inj he))]
        simp [hq]
    · push_neg at hval
      have hvc : validCat c₀ := ⟨hval.1, hval.2.1, hval.2.2⟩
      have hstep : stepEv ev a = updateAssoc ev c₀ (a.s.getD "") := by
        simp only [stepEv, hac]
        rw [if_neg (by push_neg; exact hval)]
      rw [hstep]
      refine ⟨?_, ?_, ?_⟩
      · rw [updateAssoc_keys]
        by_cases hm : c₀ ∈ ev.map Prod.fst
        · rw [if_pos hm]
          exact hnd
        · rw [if_neg hm, List.nodup_append]
          refine ⟨hnd, List.nodup_singleton _, ?_⟩
          intro x hx hx1
          rw [List.mem_singleton] at hx1
          subst hx1
          exact hm hx
      · intro k l hkl
        by_cases hkc : k = c₀
        · subst hkc
          rw [evLookup_updateAssoc_self] at hkl
          refine ⟨hvc, ?_⟩
          cases hev : evLookup ev k with
          | none =>
            rw [hev] at hkl
            have hl : [a.s.getD ""] = l := Option.some.inj hkl
            have hq0 := hnone k hvc hev
            rw [quotesFor_append, hq0, if_pos hac]
            exact hl.symm
          | some l₀ =>
            rw [hev] at hkl
            have hl : (if l₀.length < 3 then l₀ ++ [a.s.getD ""] else l₀) = l :=
              Option.some.inj hkl
            obtain ⟨hv₀, hl₀⟩ := hsome k l₀ hev
            rw [quotesFor_append, if_pos hac]
            by_cases h3 : l₀.length < 3
            · rw [if_pos h3] at hl
              have hQlen : (quotesFor processed k).length < 3 := by
                rw [hl₀] at h3
                have := List.length_take 3 (quotesFor processed k)
                omega
              have hQ : (quotesFor processed k).take 3 = quotesFor processed k :=
                List.take_of_length_le (le_of_lt hQlen)
              rw [← hl, hl₀, hQ]
              rw [List.take_of_length_le (by simp [List.length_append]; omega)]
            · rw [if_neg h3] at hl
              have hQ3 : 3 ≤ (quotesFor processed k).length := by
                rw [hl₀] at h3
                have := List.length_take 3 (quotesFor processed k)
                omega
              rw [List.take_append_of_le_length hQ3, ← hl]
              exact hl₀
        · rw [evLookup_updateAssoc_ne _ _ _ _ hkc] at hkl
          obtain ⟨hv, hl⟩ := hsome k l hkl
          refine ⟨hv, ?_⟩
          rw [quotesFor_append]
          simp only [hac]
          rw [if_neg (fun he => hkc (Option.some.inj he).symm)]
          simpa using hl
      · intro k hv hlk
        by_cases hkc : k = c₀
        · subst hkc
          rw [evLookup_updateAssoc_self] at hlk
          exact Option.noConfusion hlk
        · rw [evLookup_updateAssoc_ne _ _ _ _ hkc] at hlk
          have hq := hnone k hv hlk
          rw [quotesFor_append]
          simp only [hac]
          rw [if_neg (fun he => hkc (Option.some.inj he).symm)]
          simp [hq]

/-- The invariant carries through the whole fold. -/
theorem evInv_foldl (xs : List Annotation) : ∀ (processed : List Annotation)
    (ev : List (String × List String)), EvInv processed ev →
    EvInv (processed ++ xs) (xs.foldl stepEv ev) := by
  induction xs with
  | nil =>
    intro processed ev h
    simpa using h
  | cons a xs ih =>
    intro processed ev h
    rw [List.foldl_cons]
    have h3 := ih (processed ++ [a]) (stepEv ev a) (evInv_step processed ev a h)
    simpa [List.append_assoc] using h3

/-- The collected evidence satisfies the loop invariant over the whole
input. -/
theorem evInv_collectEvidence (xs : List Annotation) : EvInv xs (collectEvidence xs) := by
  have hbase : EvInv [] [] := by
    refine ⟨List.nodup_nil, ?_, ?_⟩
    · intro k l hkl
      cases hkl
    · intro k _ _
      rfl
  have h := evInv_foldl xs [] [] hbase
  simpa [collectEvidence] using h

/-- C6: every entry of the evidence mapping has a key that is neither
"None" nor "Unknown", a quote list of length at most 3, and that list is
exactly the first (at most 3) sample quotes, in input iteration order,
of the annotations labeled with that defect category. -/
theorem c6_evidence_invariant (xs : List Annotation) (k : String)
    (l : List String) (h : (k, l) ∈ collectEvidence xs) :
    k ≠ "None" ∧ k ≠ "Unknown" ∧ l.length ≤ 3 ∧
    l = (quotesFor xs k).take 3 := by
  obtain ⟨hnd, hsome, _⟩ := evInv_collectEvidence xs
  have hlk := evLookup_of_mem _ _ _ hnd h
  obtain ⟨hv, hl⟩ := hsome k l hlk
  refine ⟨hv.2.1, hv.2.2, ?_, hl⟩
  rw [hl]
  have := List.length_take 3 (quotesFor xs k)
  omega

/-- C6 witness: the concrete evidence entry of ex4 holds the first three
of its four quotes. -/
theorem c6_witness :
    ("A", ["q1", "q2", "q3"]) ∈ collectEvidence ex4 ∧
    ("A" ≠ "None" ∧ "A" ≠ "Unknown" ∧
      (["q1", "q2", "q3"] : List String).length ≤ 3 ∧
      ["q1", "q2", "q3"] = (quotesFor ex4 "A").take 3) :=
  ⟨by decide, c6_evidence_invariant ex4 "A" ["q1", "q2", "q3"] (by decide)⟩
